import Mathlib

/-!
Verification of the Tmr-hiro-grd-tools repository: a shallow embedding of
the `.pac` archive parser (ExPac.py) and the `.grd` image decoder
(Grd2Png.py), with theorems checking the specification's claims against it.

Files are modelled as lists of byte values (`List Nat`, each element a value
0–255); all multi-byte reads are little-endian exactly as the `struct`
format strings in the source dictate.
-/

set_option linter.unusedVariables false
set_option maxRecDepth 4096

/-- ArcView.read_byte / indexing a byte buffer: the byte at `off`.
Out-of-range reads give 0 (the Python code never relies on them in the
claims modelled here). -/
def readByte (file : List Nat) (off : Nat) : Nat := file.getD off 0

/-- Little-endian unsigned 16-bit value at `off` (two bytes). -/
def readU16 (file : List Nat) (off : Nat) : Nat :=
  readByte file off + 0x100 * readByte file (off + 1)

/-- ArcView.read_int16: struct format "<h", a SIGNED little-endian 16-bit
read — values 0x8000..0xFFFF come back negative. -/
def read_int16 (file : List Nat) (off : Nat) : Int :=
  if readU16 file off < 0x8000 then (readU16 file off : Int)
  else (readU16 file off : Int) - 0x10000

/-- ArcView.read_uint32: struct format "<I", unsigned 32-bit little-endian. -/
def readU32 (file : List Nat) (off : Nat) : Nat :=
  readU16 file off + 0x10000 * readU16 file (off + 2)

/-- Unsigned 64-bit little-endian value at `off`. -/
def readU64 (file : List Nat) (off : Nat) : Nat :=
  readU32 file off + 0x100000000 * readU32 file (off + 4)

/-- ArcView.read_int64: struct format "<q", signed 64-bit little-endian. -/
def read_int64 (file : List Nat) (off : Nat) : Int :=
  if readU64 file off < 0x8000000000000000 then (readU64 file off : Int)
  else (readU64 file off : Int) - 0x10000000000000000

/-- ExPac.is_sane_count: `0 < count < 0x10000` on the (signed) count. -/
def is_sane_count (count : Int) : Bool :=
  decide (0 < count) && decide (count < 0x10000)

/-- One directory entry of a `.pac` archive (ExPac.py, class Entry).
`name` is kept as the raw name bytes; `offset` is an `Int` because
version-2 archives store a signed 64-bit relative offset.  The sniffer's
`type` field is omitted: it never affects offset/size or placement. -/
structure Entry where
  name : List Nat
  offset : Int
  size : Nat
  deriving DecidableEq

/-- Entry.check_placement: `offset + size <= max_offset`. -/
def check_placement (e : Entry) (maxOffset : Nat) : Bool :=
  decide (e.offset + (e.size : Int) ≤ (maxOffset : Int))

/-- The version-detection step of try_open (ExPac.py lines 60–66):
`index_size = 7 + (name_length + 8) * count`; data offset equal to it means
version 1, equal to it plus `4 * count` means version 2, anything else is
rejected. -/
def select_version (count name_length data_offset : Nat) : Option Nat :=
  if data_offset = 7 + (name_length + 8) * count then some 1
  else if data_offset = 7 + (name_length + 8) * count + 4 * count then some 2
  else none

/-- One directory record at `index_offset`: the name bytes followed by, for
version 1, a u32 relative offset and u32 size (8 bytes), and for version 2,
an i64 relative offset and u32 size (12 bytes).  Returns the entry (with
`offset = relative_offset + data_offset`) and the next record's offset. -/
def read_record (file : List Nat) (version name_length data_offset index_offset : Nat) :
    Entry × Nat :=
  if version = 1 then
    ({ name := (file.drop index_offset).take name_length
       offset := (readU32 file (index_offset + name_length) : Int) + (data_offset : Int)
       size := readU32 file (index_offset + name_length + 4) },
     index_offset + name_length + 8)
  else
    ({ name := (file.drop index_offset).take name_length
       offset := read_int64 file (index_offset + name_length) + (data_offset : Int)
       size := readU32 file (index_offset + name_length + 8) },
     index_offset + name_length + 12)

/-- The entry-reading loop of try_open: read `n` directory records starting
at `index_offset`, rejecting the whole archive (no partial list) on any
placement violation. -/
def read_entries (file : List Nat) (version : Nat) (name_length data_offset : Nat) :
    Nat → Nat → Option (List Entry)
  | 0, _ => some []
  | n + 1, index_offset =>
    let p := read_record file version name_length data_offset index_offset
    if check_placement p.1 file.length then
      Option.map (fun es => p.1 :: es)
        (read_entries file version name_length data_offset n p.2)
    else none

/-- ExPac.try_open without the content-type sniffing pass (the sniffer only
rewrites name/type and cannot change the entry count, offsets or sizes). -/
def try_open (file : List Nat) : Option (List Entry) :=
  if is_sane_count (read_int16 file 0) then
    if readByte file 2 = 0 then none
    else if readU32 file 3 ≥ file.length then none
    else
      match select_version (read_int16 file 0).toNat (readByte file 2) (readU32 file 3) with
      | some v =>
        read_entries file v (readByte file 2) (readU32 file 3) (read_int16 file 0).toNat 7
      | none => none
  else none

/-- The per-byte script transform of open_entry (ExPac.py line 120):
`(b >> 4) | ((b & 0x0F) << 4)`. -/
def nibble_swap (b : Nat) : Nat := (b >>> 4) ||| ((b &&& 0x0F) <<< 4)

/-- A minimal well-formed version-1 archive: count 1, name length 1,
data offset 16 = 7 + (1+8)*1, one entry "a" of size 1 at relative offset 0. -/
def pacFile : List Nat :=
  [1, 0, 1, 16, 0, 0, 0, 0x61, 0, 0, 0, 0, 1, 0, 0, 0, 0xAA]

/-- C2 counterexample: the stored 16-bit count 0x8000 lies strictly between
0 and 65536, yet the parser reads it with signed format "<h" as -32768 and
the sanity check rejects it. -/
theorem sane_count_rejects_stored_32768 :
    is_sane_count (read_int16 [0x00, 0x80] 0) = false ∧
      0 < 0x8000 ∧ 0x8000 < 0x10000 := by decide

/-- C2 (amended): because ArcView.read_int16 is a SIGNED 16-bit read, the
count sanity check passes exactly when the stored (unsigned) 16-bit value
is in 1..0x7FFF; stored values 0x8000..0xFFFF read back negative and are
rejected. -/
theorem sane_count_signed_range (b0 b1 : Nat) (h0 : b0 < 0x100) (h1 : b1 < 0x100) :
    is_sane_count (read_int16 [b0, b1] 0) = true ↔
      0 < b0 + 0x100 * b1 ∧ b0 + 0x100 * b1 < 0x8000 := by
  have hread : readU16 [b0, b1] 0 = b0 + 0x100 * b1 := rfl
  unfold is_sane_count read_int16
  rw [hread]
  split <;> simp only [Bool.and_eq_true, decide_eq_true_eq] <;>
    constructor <;> intro h <;> omega

theorem sane_count_signed_range_witness :
    is_sane_count (read_int16 [0x07, 0x00] 0) = true ↔
      0 < 0x07 + 0x100 * 0x00 ∧ 0x07 + 0x100 * 0x00 < 0x8000 :=
  sane_count_signed_range 0x07 0x00 (by decide) (by decide)

/-- C3: with a positive entry count, the version-1 and version-2 index-size
formulas never coincide, and try_open's version selection accepts version 1
exactly at `7 + (name_length + 8) * count`, version 2 exactly at that plus
`4 * count`, and rejects everything else. -/
theorem version_selection (count name_length data_offset : Nat) (hc : 0 < count) :
    (select_version count name_length data_offset = some 1 ↔
        data_offset = 7 + (name_length + 8) * count) ∧
    (select_version count name_length data_offset = some 2 ↔
        data_offset = 7 + (name_length + 8) * count + 4 * count) ∧
    (select_version count name_length data_offset = none ↔
        data_offset ≠ 7 + (name_length + 8) * count ∧
        data_offset ≠ 7 + (name_length + 8) * count + 4 * count) ∧
    7 + (name_length + 8) * count ≠ 7 + (name_length + 8) * count + 4 * count := by
  unfold select_version
  split_ifs with h1 h2 <;> simp_all <;> omega

theorem version_selection_witness :
    (select_version 1 4 19 = some 1 ↔ 19 = 7 + (4 + 8) * 1) ∧
    (select_version 1 4 19 = some 2 ↔ 19 = 7 + (4 + 8) * 1 + 4 * 1) ∧
    (select_version 1 4 19 = none ↔
        19 ≠ 7 + (4 + 8) * 1 ∧ 19 ≠ 7 + (4 + 8) * 1 + 4 * 1) ∧
    7 + (4 + 8) * 1 ≠ 7 + (4 + 8) * 1 + 4 * 1 :=
  version_selection 1 4 19 (by decide)

/-- Every entry list produced by the reading loop satisfies the placement
bound; a violating entry makes the loop return `none` before any list is
assembled. -/
theorem read_entries_sound (file : List Nat) (version name_length data_offset : Nat) :
    ∀ (n index_offset : Nat) (es : List Entry),
      read_entries file version name_length data_offset n index_offset = some es →
      ∀ e ∈ es, e.offset + (e.size : Int) ≤ (file.length : Int) := by
  intro n
  induction n with
  | zero =>
    intro index_offset es h e he
    simp only [read_entries, Option.some.injEq] at h
    subst h
    simp at he
  | succ m ih =>
    intro index_offset es h e he
    simp only [read_entries] at h
    split at h
    · rename_i hplace
      rcases Option.map_eq_some'.mp h with ⟨es', hes', heq⟩
      subst heq
      rcases List.mem_cons.mp he with rfl | hmem
      · simpa [check_placement, decide_eq_true_eq] using hplace
      · exact ih _ es' hes' e hmem
    · exact absurd h (by simp)

/-- C4: every entry in an index returned by try_open satisfies
`offset + size <= file_length`; the parser rejects the whole archive on the
first violation and never returns a partial list. -/
theorem entries_within_file (file : List Nat) (es : List Entry)
    (h : try_open file = some es) :
    ∀ e ∈ es, e.offset + (e.size : Int) ≤ (file.length : Int) := by
  unfold try_open at h
  split at h
  · split at h
    · exact absurd h (by simp)
    · split at h
      · exact absurd h (by simp)
      · split at h
        · exact read_entries_sound file _ _ _ _ _ es h
        · exact absurd h (by simp)
  · exact absurd h (by simp)

theorem entries_within_file_witness :
    ∃ es, try_open pacFile = some es ∧
      ∀ e ∈ es, e.offset + (e.size : Int) ≤ (pacFile.length : Int) :=
  ⟨[⟨[0x61], 16, 1⟩], by decide, entries_within_file pacFile _ (by decide)⟩

/-- C8: the script nibble-swap transform is self-inverse on every byte
value 0–255, hence applying it twice to any payload restores the bytes. -/
theorem nibble_swap_involutive (b : Nat) (h : b < 0x100) :
    nibble_swap (nibble_swap b) = b := by
  revert h
  revert b
  decide

theorem nibble_swap_involutive_witness :
    nibble_swap (nibble_swap 0xAB) = 0xAB :=
  nibble_swap_involutive 0xAB (by decide)

/-- GrdMetaData (Grd2Png.py): fields parsed from the 32-byte header.
`OffsetY = screen_height - bottom` can be negative, hence `Int`. -/
structure GrdMetaData where
  Format : Nat
  Width : Nat
  Height : Nat
  BPP : Nat
  OffsetX : Nat
  OffsetY : Int
  AlphaSize : Nat
  RSize : Nat
  GSize : Nat
  BSize : Nat
  deriving DecidableEq

/-- Grd2Png.read_grd_metadata over the 32-byte header and the file's total
byte length, mirroring the source's check order: bytes 0/1, then bpp, then
the channel-size sum against the file size. -/
def read_grd_metadata (header : List Nat) (file_size : Nat) : Option GrdMetaData :=
  if ¬ ((readByte header 0 = 1 ∨ readByte header 0 = 2) ∧
        (readByte header 1 = 1 ∨ readByte header 1 = 0xA1 ∨ readByte header 1 = 0xA2)) then
    none
  else if ¬ (readU16 header 6 = 24 ∨ readU16 header 6 = 32) then none
  else
    let info : GrdMetaData :=
      { Format := readU16 header 0
        Width := ((readU16 header 10 : Int) - (readU16 header 8 : Int)).natAbs
        Height := ((readU16 header 14 : Int) - (readU16 header 12 : Int)).natAbs
        BPP := readU16 header 6
        OffsetX := readU16 header 8
        OffsetY := (readU16 header 4 : Int) - (readU16 header 14 : Int)
        AlphaSize := readU32 header 0x10
        RSize := readU32 header 0x14
        GSize := readU32 header 0x18
        BSize := readU32 header 0x1C }
    if 0x20 + info.AlphaSize + info.RSize + info.BSize + info.GSize ≠ file_size then none
    else some info

/-- C5: the metadata parser rejects exactly when byte 0 is outside {1,2},
or byte 1 is outside {1, 0xA1, 0xA2}, or bits_per_pixel is neither 24 nor
32, or 32 plus the four channel sizes differs from the file length; on
success Width and Height are the absolute differences of the boundary
fields (right-left and bottom-top). -/
theorem grd_metadata_characterization (header : List Nat) (file_size : Nat) :
    read_grd_metadata header file_size =
      if (readByte header 0 = 1 ∨ readByte header 0 = 2) ∧
         (readByte header 1 = 1 ∨ readByte header 1 = 0xA1 ∨ readByte header 1 = 0xA2) ∧
         (readU16 header 6 = 24 ∨ readU16 header 6 = 32) ∧
         0x20 + readU32 header 0x10 + readU32 header 0x14 +
           readU32 header 0x18 + readU32 header 0x1C = file_size then
        some { Format := readU16 header 0
               Width := ((readU16 header 10 : Int) - (readU16 header 8 : Int)).natAbs
               Height := ((readU16 header 14 : Int) - (readU16 header 12 : Int)).natAbs
               BPP := readU16 header 6
               OffsetX := readU16 header 8
               OffsetY := (readU16 header 4 : Int) - (readU16 header 14 : Int)
               AlphaSize := readU32 header 0x10
               RSize := readU32 header 0x14
               GSize := readU32 header 0x18
               BSize := readU32 header 0x1C }
      else none := by
  unfold read_grd_metadata
  split_ifs with h1 h2 h3 h4 <;> simp_all <;> omega

/-- GrdReader.unpack_rle: expand `budget` input bytes (the declared channel
source size).  Each step reads a control byte: high bit set means repeat the
following literal byte `control & 0x7F` times (two bytes consumed); nonzero
with high bit clear means copy that many input bytes literally; zero means
nothing.  A read past the end of the input (Python raises there) is `none`.
The loop may consume up to one byte (repeat case) or `control` bytes
(literal case) beyond the declared budget, exactly as the source does;
natural subtraction then ends the loop, matching `src < src_size`. -/
def unpack_rle : Nat → List Nat → Option (List Nat)
  | 0, _ => some []
  | _ + 1, [] => none
  | budget + 1, c :: rest =>
    if 0x7F < c then
      match rest with
      | [] => none
      | v :: rest2 =>
        Option.map (fun out => List.replicate (c &&& 0x7F) v ++ out)
          (unpack_rle (budget - 1) rest2)
    else if 0 < c then
      if rest.length < c then none
      else
        Option.map (fun out => rest.take c ++ out)
          (unpack_rle (budget - c) (rest.drop c))
    else unpack_rle budget rest
termination_by b l => b
decreasing_by all_goals omega

/-- C6 counterexample: the control byte 0x80 has the high bit set, but
masking gives repeat count 0, not a count in 1..127 — the following literal
byte 0x42 is consumed and nothing is emitted. -/
theorem rle_control_0x80_yields_zero_count :
    unpack_rle 2 [0x80, 0x42] = some [] ∧ 0x80 &&& 0x7F = 0 := by
  have hmask : 0x80 &&& 0x7F = 0 := by decide
  refine ⟨?_, hmask⟩
  simp [unpack_rle, hmask]

/-- C6 (amended): one step of the RLE expander behaves as the claim states
except that the masked repeat count ranges over 0..127 (control byte 0x80
gives count 0, consuming its literal byte and emitting nothing): high bit
set emits `c &&& 0x7F` copies of the next byte; nonzero with high bit clear
copies the next `c` input bytes literally; a zero control byte contributes
nothing and consumes only itself. -/
theorem rle_step_semantics (budget c v : Nat) (lit rest : List Nat) :
    (0x7F < c →
      unpack_rle (budget + 1) (c :: v :: rest) =
        Option.map (fun out => List.replicate (c &&& 0x7F) v ++ out)
          (unpack_rle (budget - 1) rest) ∧ c &&& 0x7F ≤ 0x7F) ∧
    (0 < c → c ≤ 0x7F → lit.length = c →
      unpack_rle (budget + 1) (c :: (lit ++ rest)) =
        Option.map (fun out => lit ++ out) (unpack_rle (budget - c) rest)) ∧
    unpack_rle (budget + 1) (0 :: rest) = unpack_rle budget rest := by
  refine ⟨fun hc => ?_, fun hc hc7 hlen => ?_, ?_⟩
  · constructor
    · rw [unpack_rle.eq_def]
      simp [hc]
    · exact Nat.and_le_right
  · rw [unpack_rle.eq_def]
    have hnlt : ¬ 0x7F < c := by omega
    have hlen2 : ¬ (lit ++ rest).length < c := by simp [hlen]
    simp only [hnlt, if_false, hc, if_true, hlen2]
    rw [← hlen, List.take_left, List.drop_left]
  · rw [unpack_rle.eq_def]
    simp

theorem rle_step_semantics_witness :
    (unpack_rle 2 [0x90, 0x05] =
      Option.map (fun out => List.replicate (0x90 &&& 0x7F) 0x05 ++ out)
        (unpack_rle 0 []) ∧ 0x90 &&& 0x7F ≤ 0x7F) ∧
    unpack_rle 3 [2, 7, 8] =
      Option.map (fun out => [7, 8] ++ out) (unpack_rle 0 []) :=
  ⟨(rle_step_semantics 1 0x90 0x05 [] []).1 (by decide),
   (rle_step_semantics 2 2 0 [7, 8] []).2.1 (by decide) (by decide) (by decide)⟩

/-- The back-reference copy loop of unpack_lz77: `count` bytes copied one at
a time, source and destination advancing together; `out` is the output
written so far, so each copied byte reads position `out.length - offset` of
the current output.  A read outside the written range returns 0 (the Python
code indexes a preallocated zero buffer there). -/
def lz_copy (offset : Nat) : Nat → List Nat → List Nat
  | 0, out => out
  | count + 1, out => lz_copy offset count (out ++ [out.getD (out.length - offset) 0])

/-- The main loop of unpack_lz77: a byte different from the escape value is
emitted literally; escape followed by the escape value emits one literal
escape byte; escape, offset, count performs a back-reference copy, with the
offset decremented by one when it exceeds the escape value.  The loop stops
when `outLen` output bytes exist (checked before each token, as in the
source's `while dst < len(output)`); exhausting the input mid-token (a
Python IndexError) returns the output built so far. -/
def lz_loop (special outLen : Nat) : List Nat → List Nat → List Nat
  | [], out => out
  | b :: rest, out =>
    if outLen ≤ out.length then out
    else if b = special then
      match rest with
      | [] => out
      | o :: rest2 =>
        if o ≠ special then
          match rest2 with
          | [] => out
          | k :: rest3 =>
            lz_loop special outLen rest3 (lz_copy (if special < o then o - 1 else o) k out)
        else lz_loop special outLen rest2 (out ++ [o])
    else lz_loop special outLen rest (out ++ [b])

/-- GrdReader.unpack_lz77: the escape byte is input byte 8; decoding starts
at input position 12 with an empty output, targeting `outLen` bytes. -/
def unpack_lz77 (input : List Nat) (outLen : Nat) : List Nat :=
  lz_loop (input.getD 8 0) outLen (input.drop 12) []

/-- The last written byte of the output, as `lz_copy` with offset 1 reads it. -/
theorem lz_copy_getD_last (xs : List Nat) (b : Nat) :
    (xs ++ [b]).getD ((xs ++ [b]).length - 1) 0 = b := by
  induction xs with
  | nil => rfl
  | cons x xs ih => simp

/-- Offset-1 copies replicate the last output byte. -/
theorem lz_copy_offset_one (k : Nat) :
    ∀ (xs : List Nat) (b : Nat),
      lz_copy 1 k (xs ++ [b]) = xs ++ [b] ++ List.replicate k b := by
  induction k with
  | zero => intro xs b; simp [lz_copy]
  | succ m ih =>
    intro xs b
    rw [lz_copy, lz_copy_getD_last]
    have := ih (xs ++ [b]) b
    rw [this]
    simp [List.replicate_succ]

/-- C7: an LZ77 back-reference token (escape, offset, count) with
offset ≠ escape hands the output to the one-byte-at-a-time copy loop
`lz_copy` (offset decremented when above the escape value), and a copy with
effective offset 1 and count 5 appends five copies of the immediately
preceding output byte — the overlapping self-copy replicates the pattern. -/
theorem lz77_overlap_backref (special outLen o k b : Nat) (pre rest out : List Nat)
    (hfull : out.length < outLen) (ho : o ≠ special) :
    lz_loop special outLen (special :: o :: k :: rest) out =
      lz_loop special outLen rest (lz_copy (if special < o then o - 1 else o) k out) ∧
    lz_copy 1 5 (pre ++ [b]) = pre ++ [b] ++ List.replicate 5 b := by
  constructor
  · conv_lhs => rw [lz_loop.eq_def]
    simp [Nat.not_le.mpr hfull, ho]
  · exact lz_copy_offset_one 5 pre b

theorem lz77_overlap_backref_witness :
    lz_loop 2 9 [2, 1, 5, 9] [3] =
      lz_loop 2 9 [9] (lz_copy (if 2 < 1 then 1 - 1 else 1) 5 [3]) ∧
    lz_copy 1 5 ([] ++ [3]) = [] ++ [3] ++ List.replicate 5 3 :=
  lz77_overlap_backref 2 9 1 5 3 [] [9] [3] (by decide) (by decide)

/-- HuffmanNode (Grd2Png.py): frequency plus left/right child indices into
the fixed 512-slot node table (an index ≤ 0xFF denotes the leaf for that
byte value). -/
structure HuffmanNode where
  freq : Nat
  left : Nat
  right : Nat
  deriving DecidableEq

/-- GrdReader.add_node: insert `index` into the priority list immediately
before the first element of strictly greater frequency, else append — the
stable ascending insertion the source uses. -/
def add_node (nodes : Nat → HuffmanNode) (index : Nat) : List Nat → List Nat
  | [] => [index]
  | t :: ts =>
    if (nodes index).freq < (nodes t).freq then index :: t :: ts
    else t :: add_node nodes index ts

/-- The seeding loop of create_huffman_tree: for i = 0..n-1, set
nodes[i].freq from the frequency table and insert leaf i into the priority
list.  The source always runs it with n = 0x100: zero-frequency leaves are
inserted like any other. -/
def seed_tree (freqs : Nat → Nat) : Nat → List Nat × (Nat → HuffmanNode)
  | 0 => ([], fun _ => ⟨0, 0, 0⟩)
  | n + 1 =>
    let p := seed_tree freqs n
    let nodes := Function.update p.2 n ⟨freqs n, 0, 0⟩
    (add_node nodes n p.1, nodes)

/-- The merge loop of create_huffman_tree: while more than one node remains,
pop the two lowest-frequency nodes, make them the children of a fresh
internal node (indices counting up from `last`), and reinsert it.  `fuel`
only bounds the iteration count; the source's `while len(tree) > 1` runs
exactly `length - 1` times, so any fuel ≥ length - 1 gives the loop's
behaviour. -/
def merge_loop : Nat → List Nat → (Nat → HuffmanNode) → Nat →
    List Nat × (Nat → HuffmanNode) × Nat
  | fuel + 1, l :: r :: rest, nodes, last =>
    let nodes2 := Function.update nodes last ⟨(nodes l).freq + (nodes r).freq, l, r⟩
    merge_loop fuel (add_node nodes2 last rest) nodes2 (last + 1)
  | _, tree, nodes, last => (tree, nodes, last)

/-- GrdReader.create_huffman_tree on a 256-entry frequency table: seed all
256 leaves, then merge starting with internal node index 0x100.  Returns
the final priority list (the root alone), the node table, and the next
unused node index. -/
def create_huffman_tree (freqs : Nat → Nat) : List Nat × (Nat → HuffmanNode) × Nat :=
  let p := seed_tree freqs 0x100
  merge_loop 0x100 p.1 p.2 0x100

/-- One symbol of unpack_huffman's inner loop: starting node, follow one
bit per step (0 = left child, 1 = right child) until the node index is
≤ 0xFF, which is the decoded byte.  Exhausting the bit stream mid-walk is
`none`; `fuel` bounds the walk but each step consumes a bit, so
`bits.length + 1` fuel never cuts the real loop short. -/
def decode_symbol (nodes : Nat → HuffmanNode) : Nat → Nat → List Bool → Option (Nat × List Bool)
  | 0, _, _ => none
  | fuel + 1, node, bits =>
    if node ≤ 0xFF then some (node, bits)
    else
      match bits with
      | [] => none
      | b :: rest =>
        decode_symbol nodes fuel (if b then (nodes node).right else (nodes node).left) rest

/-- The outer loop of unpack_huffman: decode `size` output bytes, each
starting from the hard-coded node index 0x1FE. -/
def huffman_decode (nodes : Nat → HuffmanNode) : Nat → List Bool → Option (List Nat)
  | 0, _ => some []
  | n + 1, bits =>
    match decode_symbol nodes (bits.length + 1) 0x1FE bits with
    | none => none
    | some p => Option.map (fun out => p.1 :: out) (huffman_decode nodes n p.2)

/-- LsbBitStream: the bit sequence of a byte stream, least significant bit
of each byte first. -/
def lsb_bits (bytes : List Nat) : List Bool :=
  (bytes.map (fun b => (List.range 8).map (fun i => decide (b >>> i &&& 1 = 1)))).flatten

/-- GrdReader.unpack_huffman with the stream header already parsed: build
the tree from the 256-entry frequency table, then decode `size` bytes from
the bit stream. -/
def unpack_huffman (freqs : Nat → Nat) (size : Nat) (bits : List Bool) : Option (List Nat) :=
  huffman_decode (create_huffman_tree freqs).2.1 size bits

/-- Inserting a node grows the priority list by exactly one. -/
theorem add_node_length (nodes : Nat → HuffmanNode) (index : Nat) (tree : List Nat) :
    (add_node nodes index tree).length = tree.length + 1 := by
  induction tree with
  | nil => rfl
  | cons t ts ih =>
    simp only [add_node]
    split
    · simp
    · simp [ih]

/-- Seeding n leaves yields a priority list of length n. -/
theorem seed_tree_length (freqs : Nat → Nat) (n : Nat) :
    (seed_tree freqs n).1.length = n := by
  induction n with
  | zero => rfl
  | succ m ih => simp [seed_tree, add_node_length, ih]

/-- The merge loop leaves a singleton list untouched. -/
theorem merge_loop_singleton (fuel : Nat) (x : Nat) (nodes : Nat → HuffmanNode) (last : Nat) :
    merge_loop fuel [x] nodes last = ([x], nodes, last) := by
  cases fuel <;> rfl

/-- With enough fuel, merging a list of ≥ 2 nodes performs exactly
`length - 1` merges: the sole survivor is the last internal node created,
`last + length - 2`, and the next unused index is `last + length - 1`. -/
theorem merge_loop_root (fuel : Nat) :
    ∀ (tree : List Nat) (nodes : Nat → HuffmanNode) (nlast : Nat),
      2 ≤ tree.length → tree.length ≤ fuel + 1 →
      (merge_loop fuel tree nodes nlast).1 = [nlast + (tree.length - 2)] ∧
      (merge_loop fuel tree nodes nlast).2.2 = nlast + (tree.length - 1) := by
  induction fuel with
  | zero =>
    intro tree nodes nlast h2 hle
    omega
  | succ f ih =>
    intro tree nodes nlast h2 hle
    rcases tree with _ | ⟨l, _ | ⟨r, rest⟩⟩
    · simp at h2
    · simp at h2
    · simp only [merge_loop]
      rcases eq_or_ne rest [] with hr | hr
      · subst hr
        simp [add_node, merge_loop_singleton]
      · have hrl : 0 < rest.length := List.length_pos.mpr hr
        have hlen := add_node_length
          (Function.update nodes nlast ⟨(nodes l).freq + (nodes r).freq, l, r⟩) nlast rest
        simp only [List.length_cons] at hle
        obtain ⟨ha, hb⟩ := ih
          (add_node (Function.update nodes nlast
            ⟨(nodes l).freq + (nodes r).freq, l, r⟩) nlast rest)
          (Function.update nodes nlast ⟨(nodes l).freq + (nodes r).freq, l, r⟩)
          (nlast + 1) (by omega) (by omega)
        refine ⟨?_, ?_⟩
        · rw [ha, hlen]
          simp only [List.length_cons]
          congr 1
          omega
        · rw [hb, hlen]
          simp only [List.length_cons]
          omega

/-- C9: for every 256-entry frequency table, the seeding pass inserts all
256 leaf indices (the list has length 0x100), the merge loop therefore
performs exactly 255 merges (the next unused internal index ends at 0x1FF),
and the single surviving node — the root — is the last internal node
created, index 0x1FE: the decoder's fixed starting index is always the
root. -/
theorem huffman_root_node (freqs : Nat → Nat) :
    (create_huffman_tree freqs).1 = [0x1FE] ∧
    (create_huffman_tree freqs).2.2 = 0x1FF ∧
    (seed_tree freqs 0x100).1.length = 0x100 := by
  have hseed := seed_tree_length freqs 0x100
  have h := merge_loop_root 0x100 (seed_tree freqs 0x100).1 (seed_tree freqs 0x100).2 0x100
    (by omega) (by omega)
  simp only [create_huffman_tree]
  refine ⟨?_, ?_, hseed⟩
  · rw [h.1, hseed]
  · rw [h.2, hseed]

/-- C1 counterexample: with the frequency table whose only nonzero entry is
byte value 0, decoding a single output byte from an empty bit stream fails:
the decoder starts at the always-internal node 0x1FE and immediately
attempts a bit read.  Were the claim true (no bit ever read for such a
table), the decode would succeed on the empty stream. -/
theorem huffman_single_nonzero_reads_bit :
    unpack_huffman (fun i => if i = 0 then 1 else 0) 1 (lsb_bits []) = none := rfl

/-- C1 (amended): for every frequency table with exactly one nonzero entry
(value k, count c + 1) — indeed the tree contents are never consulted
before the first bit — decoding any positive number of bytes attempts at
least one bit read per byte, because every byte's walk starts at the
internal node index 0x1FE; hence decoding from an empty bit stream returns
failure instead of succeeding bit-free. -/
theorem huffman_single_nonzero_always_reads (k c n : Nat) :
    unpack_huffman (fun i => if i = k then c + 1 else 0) (n + 1) (lsb_bits []) = none := rfl

/-- The inner x-loop of unpack_channel's interleave: write `w` channel
bytes into `output`, one at positions dst, dst + ps, ..., advancing the
channel read position by 1 and the output position by the pixel size each
step.  Returns the updated output and the final dst.  An out-of-range
`List.set` is a no-op where Python would raise; the claims modelled here
only concern which positions are written. -/
def interleave_row (channel : List Nat) (ps : Nat) :
    Nat → Nat → Nat → List Nat → List Nat × Nat
  | 0, _, dst, output => (output, dst)
  | w + 1, src, dst, output =>
    interleave_row channel ps w (src + 1) (dst + ps) (output.set dst (channel.getD src 0))

/-- The outer y-loop of the interleave: rows are visited bottom-up (the
caller passes the descending row list), each row starting its reads at
`y * w`, with the single output position counter threaded through. -/
def interleave_rows (channel : List Nat) (w ps : Nat) :
    List Nat → Nat → List Nat → List Nat
  | [], _, output => output
  | y :: ys, dst, output =>
    let p := interleave_row channel ps w (y * w) dst output
    interleave_rows channel w ps ys p.2 p.1

/-- The interleaving pass of GrdReader.unpack_channel: y from h-1 down
to 0, x from 0 to w-1, writing one channel byte per pixel at the channel's
fixed byte offset `d`, dst advancing by the pixel size ps. -/
def unpack_channel_interleave (channel output : List Nat) (d w h ps : Nat) : List Nat :=
  interleave_rows channel w ps ((List.range h).reverse) d output

/-- Setting position i leaves every other position unchanged. -/
theorem getD_set_ne (l : List Nat) (i j v : Nat) (h : i ≠ j) :
    (l.set i v).getD j 0 = l.getD j 0 := by
  simp [List.getD_eq_getElem?_getD, List.getElem?_set_ne h]

/-- The row loop writes only positions congruent to dst modulo ps, and its
final dst keeps that residue. -/
theorem interleave_row_frame (channel : List Nat) (ps : Nat) :
    ∀ (w src dst : Nat) (output : List Nat) (j : Nat), j % ps ≠ dst % ps →
      (interleave_row channel ps w src dst output).1.getD j 0 = output.getD j 0 ∧
      (interleave_row channel ps w src dst output).2 % ps = dst % ps := by
  intro w
  induction w with
  | zero => intro src dst output j hj; exact ⟨rfl, rfl⟩
  | succ m ih =>
    intro src dst output j hj
    simp only [interleave_row]
    have hne : dst ≠ j := fun h => hj (by rw [h])
    have hd : (dst + ps) % ps = dst % ps := Nat.add_mod_right dst ps
    have hj2 : j % ps ≠ (dst + ps) % ps := by rw [hd]; exact hj
    obtain ⟨h1, h2⟩ := ih (src + 1) (dst + ps) (output.set dst (channel.getD src 0)) j hj2
    refine ⟨?_, ?_⟩
    · rw [h1, getD_set_ne _ _ _ _ hne]
    · rw [h2, hd]

/-- The whole row sequence writes only positions congruent to the starting
dst modulo ps. -/
theorem interleave_rows_frame (channel : List Nat) (w ps : Nat) :
    ∀ (ys : List Nat) (dst : Nat) (output : List Nat) (j : Nat), j % ps ≠ dst % ps →
      (interleave_rows channel w ps ys dst output).getD j 0 = output.getD j 0 := by
  intro ys
  induction ys with
  | nil => intro dst output j hj; rfl
  | cons y ys ih =>
    intro dst output j hj
    simp only [interleave_rows]
    obtain ⟨h1, h2⟩ := interleave_row_frame channel ps w (y * w) dst output j hj
    rw [ih _ _ j (by rw [h2]; exact hj), h1]

/-- C10: interleaving one decoded channel writes only the output positions
d, d + ps, d + 2·ps, ... (those congruent to the channel's byte offset d
modulo the pixel size); every output byte at any other offset within each
pixel is unchanged. -/
theorem interleave_frame (channel output : List Nat) (d w h ps j : Nat)
    (hj : j % ps ≠ d % ps) :
    (unpack_channel_interleave channel output d w h ps).getD j 0 = output.getD j 0 :=
  interleave_rows_frame channel w ps ((List.range h).reverse) d output j hj

theorem interleave_frame_witness :
    (unpack_channel_interleave [1, 2, 3, 4] (List.replicate 12 7) 0 2 2 3).getD 1 0 =
      (List.replicate 12 7).getD 1 0 :=
  interleave_frame [1, 2, 3, 4] (List.replicate 12 7) 0 2 2 3 1 (by decide)
